import Mathlib

/-!
Verification of the project-media reconciliation core of `main_pr_aepx.py`.

The Python core is shallowly embedded as executable Lean definitions:

* Python strings are `String` (viewed through `String.toList` where the code
  works character by character); raw file bytes are `List Nat`.
* `pathlib` name/suffix computations (`Path.name`, `Path.suffix`,
  `Path.suffixes`, `PureWindowsPath.name`, `PurePosixPath.name`) are
  transcribed from CPython's `pathlib` parsing rules (POSIX flavour for
  `Path`, since the tool runs on a POSIX host).
* The XML libraries (`xml.etree.ElementTree` and the optional `lxml`
  recovering mode) are external collaborators; they are passed in as explicit
  function arguments in the `XmlLibs` record.  A parsed XML tree is modelled
  by the flat list of its elements in `root.iter()` order, since the
  extractor only looks at each element's tag and text.
* `gzip` decompression is likewise an `XmlLibs` field; the UTF-8 decoding
  steps (`encoding='utf-8'` strict and `'utf-8-sig', errors='ignore'`) are
  modelled by an explicit UTF-8 decoder over byte lists.
* The media folder is modelled by the flat list of filesystem entries that
  `Path.rglob('*')` yields beneath it, each carrying its name and kind.
* Python `set[str]` values are modelled as duplicate-free `List String`
  (built with `List.dedup`); `sorted` is insertion sort by code points.
* A Python exception escaping `parse_project_filenames` is modelled by the
  `Except PyErr` monad.
-/

/-! ## Python string primitives -/

/-- Backslash character, written via its code point. -/
def bslash : Char := Char.ofNat 92

/-- Double-quote character. -/
def dquoteChar : Char := Char.ofNat 34

/-- Single-quote character. -/
def squoteChar : Char := Char.ofNat 39

/-- Characters stripped by Python `str.strip()` with no argument (the ASCII
whitespace characters; the rarer Unicode whitespace is not modelled). -/
def isPyWs (c : Char) : Bool :=
  c == ' ' || c == Char.ofNat 9 || c == Char.ofNat 10 ||
    c == Char.ofNat 13 || c == Char.ofNat 11 || c == Char.ofNat 12

/-- Remove the trailing run of characters satisfying `p` (the right half of
Python `str.strip`). -/
def dropEndWhile (p : Char → Bool) (l : List Char) : List Char :=
  (l.reverse.dropWhile p).reverse

/-- Python `str.strip(chars)`: remove the leading and trailing runs of
characters satisfying `p`.  Note that this removes every such character at
either end, not a single layer. -/
def stripBoth (p : Char → Bool) (l : List Char) : List Char :=
  dropEndWhile p (l.dropWhile p)

/-- Python `s.lower()` restricted to ASCII case mapping. -/
def lowerStr (s : String) : String := ⟨s.toList.map Char.toLower⟩

/-- Code-point lexicographic comparison, as Python `<=` on `str`. -/
def lexLe : List Char → List Char → Bool
  | [], _ => true
  | _ :: _, [] => false
  | a :: as, b :: bs => if a = b then lexLe as bs else decide (a < b)

/-- Python `needle in hay` on strings: contiguous subsequence test. -/
def containsSeq (needle : List Char) : List Char → Bool
  | [] => List.isPrefixOf needle []
  | c :: t => List.isPrefixOf needle (c :: t) || containsSeq needle t

/-- Python `str.split(sep)` for a one-character separator, keeping empty
pieces (so `splitSep` of `"a..b"` on a dot is `["a", "", "b"]`). -/
def splitSep (p : Char → Bool) : List Char → List (List Char)
  | [] => [[]]
  | c :: rest =>
    match splitSep p rest with
    | [] => [[]]
    | h :: t => if p c then [] :: h :: t else (c :: h) :: t

/-! ## The `pathlib` model -/

/-- Index of the first `bslash` at position `start` or later, as
`str.find(sep, start)` in CPython's Windows path parser. -/
def findSepFrom (l : List Char) (start : Nat) : Option Nat :=
  (List.findIdx? (fun c => c == bslash) (l.drop start)).map (· + start)

/-- Final phase of CPython `_WindowsFlavour.splitroot`: strip an optional
drive (an ASCII letter followed by a colon) and then the leading run of
separators (the root). -/
def stripDriveRoot (l : List Char) : List Char :=
  let l1 :=
    match l with
    | a :: b :: rest => if b == ':' && a.isAlpha then rest else l
    | _ => l
  l1.dropWhile (fun c => c == bslash)

/-- Relative part of a Windows path after drive and root are removed,
following CPython `_WindowsFlavour.splitroot` (with the separator already
normalised to `bslash`): a path starting with exactly two separators is
parsed as a UNC `\\host\share` anchor whose following component run is the
relative part. -/
def winRelPart (l : List Char) : List Char :=
  match l with
  | a :: b :: c :: _ =>
    if a == bslash && b == bslash && c != bslash then
      match findSepFrom l 2 with
      | some i =>
        match findSepFrom l (i + 1) with
        | some j => if j == i + 1 then stripDriveRoot l else l.drop (j + 1)
        | none => []
      | none => stripDriveRoot l
    else stripDriveRoot l
  | _ => stripDriveRoot l

/-- Last `pathlib` component of a relative part: split on the separator,
drop empty and `.` pieces, and take the last piece (`''` when none is
left), as `PurePath.name`. -/
def relLastName (sep : Char) (rel : List Char) : List Char :=
  ((splitSep (fun c => c == sep) rel).filter
    (fun x => !x.isEmpty && x != ['.'])).getLast?.getD []

/-- CPython `PureWindowsPath(s).name`: normalise `/` to `\`, remove drive
and root (including UNC anchors), and take the last component. -/
def winNameChars (l0 : List Char) : List Char :=
  let l := l0.map (fun c => if c == '/' then bslash else c)
  relLastName bslash (winRelPart l)

/-- CPython `PurePosixPath(s).name`. -/
def posixNameChars (l : List Char) : List Char := relLastName '/' l

/-- CPython `Path(s).name` on the POSIX host the tool runs on. -/
def pyName (p : String) : String := ⟨posixNameChars p.toList⟩

/-- Index of the last dot in a character list (`str.rfind('.')`). -/
def rfindDot : List Char → Option Nat
  | [] => none
  | c :: rest =>
    match rfindDot rest with
    | some i => some (i + 1)
    | none => if c == '.' then some 0 else none

/-- CPython `Path(p).suffix`: the final component's last suffix, with its
dot, provided the last dot is neither the first nor the last character of
the name. -/
def path_suffix (p : String) : String :=
  let n := (pyName p).toList
  match rfindDot n with
  | some i => if 0 < i ∧ i < n.length - 1 then ⟨n.drop i⟩ else ""
  | none => ""

/-- CPython `Path(p).suffixes`: empty for a name ending in a dot, otherwise
the dot-separated pieces of the name after its leading dots, except the
first piece, each with a dot restored. -/
def path_suffixes (p : String) : List String :=
  let n := (pyName p).toList
  if n.getLast? == some '.' then []
  else
    let n1 := n.dropWhile (fun c => c == '.')
    ((splitSep (fun c => c == '.') n1).drop 1).map (fun s => ⟨'.' :: s⟩)

/-- Python `l[-2:]` on a list of suffixes. -/
def lastTwo (l : List String) : List String := l.drop (l.length - 2)

/-! ## The path normaliser `_clean_to_filename` (source lines 89-96) -/

/-- Source line 90: `raw.strip().strip('"').strip("'")` — surrounding
whitespace, then every enclosing double quote, then every enclosing single
quote. -/
def stripPhase (l : List Char) : List Char :=
  stripBoth (fun c => c == squoteChar)
    (stripBoth (fun c => c == dquoteChar) (stripBoth isPyWs l))

/-- Source lines 91-96 applied to the already-stripped characters: remove a
Windows extended-length prefix `\\?\`, take the Windows-style final
component, and fall back to the POSIX-style final component when that is
empty or leaves the string unchanged. -/
def cleanAfterStrip (l0 : List Char) : List Char :=
  let l := if l0.take 4 = [bslash, bslash, '?', bslash] then l0.drop 4 else l0
  let name := winNameChars l
  if name = [] ∨ name = l then posixNameChars l else name

/-- Source `_clean_to_filename`: reduce a raw extracted string to a bare
filename. -/
def _clean_to_filename (raw : String) : String :=
  ⟨cleanAfterStrip (stripPhase raw.toList)⟩

/-! ## UTF-8 decoding -/

/-- Continuation byte test. -/
def contB (b : Nat) : Bool := decide (0x80 ≤ b ∧ b ≤ 0xBF)

/-- Allowed range of the first continuation byte after a three-byte lead. -/
def lead3Ok (b b1 : Nat) : Bool :=
  if b = 0xE0 then decide (0xA0 ≤ b1 ∧ b1 ≤ 0xBF)
  else if b = 0xED then decide (0x80 ≤ b1 ∧ b1 ≤ 0x9F)
  else contB b1

/-- Allowed range of the first continuation byte after a four-byte lead. -/
def lead4Ok (b b1 : Nat) : Bool :=
  if b = 0xF0 then decide (0x90 ≤ b1 ∧ b1 ≤ 0xBF)
  else if b = 0xF4 then decide (0x80 ≤ b1 ∧ b1 ≤ 0x8F)
  else contB b1

/-- Strict UTF-8 decoding, as Python `bytes.decode('utf-8')`: `none` models
a `UnicodeDecodeError`. -/
def utf8DecodeStrict : List Nat → Option (List Char)
  | [] => some []
  | b :: rest =>
    if b < 0x80 then (utf8DecodeStrict rest).map (Char.ofNat b :: ·)
    else if 0xC2 ≤ b ∧ b ≤ 0xDF then
      match rest with
      | b1 :: r =>
        if contB b1 then
          (utf8DecodeStrict r).map (Char.ofNat ((b - 0xC0) * 0x40 + (b1 - 0x80)) :: ·)
        else none
      | [] => none
    else if 0xE0 ≤ b ∧ b ≤ 0xEF then
      match rest with
      | b1 :: b2 :: r =>
        if lead3Ok b b1 && contB b2 then
          (utf8DecodeStrict r).map
            (Char.ofNat ((b - 0xE0) * 0x1000 + (b1 - 0x80) * 0x40 + (b2 - 0x80)) :: ·)
        else none
      | _ => none
    else if 0xF0 ≤ b ∧ b ≤ 0xF4 then
      match rest with
      | b1 :: b2 :: b3 :: r =>
        if lead4Ok b b1 && contB b2 && contB b3 then
          (utf8DecodeStrict r).map
            (Char.ofNat ((b - 0xF0) * 0x40000 + (b1 - 0x80) * 0x1000 +
              (b2 - 0x80) * 0x40 + (b3 - 0x80)) :: ·)
        else none
      | _ => none
    else none

/-- Best-effort UTF-8 decoding, as Python `errors='ignore'`: an invalid
lead byte is skipped and decoding resumes at the next byte.  The `fuel`
argument only drives structural recursion; it is initialised to the list
length, which bounds the number of decoding steps. -/
def utf8DecodeSkipAux : Nat → List Nat → List Char
  | 0, _ => []
  | _ + 1, [] => []
  | fuel + 1, b :: rest =>
    if b < 0x80 then Char.ofNat b :: utf8DecodeSkipAux fuel rest
    else if 0xC2 ≤ b ∧ b ≤ 0xDF then
      match rest with
      | b1 :: r =>
        if contB b1 then
          Char.ofNat ((b - 0xC0) * 0x40 + (b1 - 0x80)) :: utf8DecodeSkipAux fuel r
        else utf8DecodeSkipAux fuel rest
      | [] => []
    else if 0xE0 ≤ b ∧ b ≤ 0xEF then
      match rest with
      | b1 :: b2 :: r =>
        if lead3Ok b b1 && contB b2 then
          Char.ofNat ((b - 0xE0) * 0x1000 + (b1 - 0x80) * 0x40 + (b2 - 0x80)) ::
            utf8DecodeSkipAux fuel r
        else utf8DecodeSkipAux fuel rest
      | _ => utf8DecodeSkipAux fuel rest
    else if 0xF0 ≤ b ∧ b ≤ 0xF4 then
      match rest with
      | b1 :: b2 :: b3 :: r =>
        if lead4Ok b b1 && contB b2 && contB b3 then
          Char.ofNat ((b - 0xF0) * 0x40000 + (b1 - 0x80) * 0x1000 +
            (b2 - 0x80) * 0x40 + (b3 - 0x80)) :: utf8DecodeSkipAux fuel r
        else utf8DecodeSkipAux fuel rest
      | _ => utf8DecodeSkipAux fuel rest
    else utf8DecodeSkipAux fuel rest

/-- Best-effort UTF-8 decoding of a whole byte list. -/
def utf8DecodeSkip (l : List Nat) : List Char := utf8DecodeSkipAux l.length l

/-- Python `bytes.decode('utf-8-sig', errors='ignore')`: drop a leading
UTF-8 byte-order mark, then decode best-effort. -/
def utf8SigDecodeSkip (bs : List Nat) : String :=
  match bs with
  | 0xEF :: 0xBB :: 0xBF :: r => ⟨utf8DecodeSkip r⟩
  | _ => ⟨utf8DecodeSkip bs⟩

/-! ## The project parser `parse_project_filenames` (source lines 98-142) -/

/-- One XML element as seen by the extractor: its tag and its text content
(`""` models both an absent and an empty text). -/
structure XElem where
  tag : String
  text : String
deriving DecidableEq

/-- External collaborators of `parse_project_filenames`: the strict
`xml.etree.ElementTree` entry points, the optional `lxml` recovering mode
(`none` when the `import lxml` fails), and `gzip` decompression (`none`
models a decompression failure).  A parsed tree is the list of its elements
in document order. -/
structure XmlLibs where
  etFromstring : String → Except Unit (List XElem)
  etParseFile : List Nat → Except Unit (List XElem)
  lxmlRecover : Option (String → Except Unit (List XElem))
  gunzip : List Nat → Option (List Nat)

/-- A project file input: its path string and its raw bytes. -/
structure PFile where
  path : String
  bytes : List Nat

/-- The Python exceptions that can escape the core. -/
inductive PyErr where
  | unsupportedFormat (suffix : String)
  | parseError
  | nameError
  | unicodeDecodeError
  | badGzip
deriving DecidableEq

deriving instance DecidableEq for Except

/-- Source line 106: dispatch to the compressed-container branch when the
lower-cased suffix is `.prproj`, or when the last two suffixes are exactly
`['.prproj', '.gz']` (this second test is written without `lower()` in the
source and is therefore case-sensitive). -/
def isCompressedRoute (p : String) : Bool :=
  decide (lowerStr (path_suffix p) = ".prproj" ∨
    lastTwo (path_suffixes p) = [".prproj", ".gz"])

/-- Source line 135. -/
def candidate_tags : List String :=
  ["Path", "FilePath", "ActualMediaFilePath", "AbsolutePath"]

/-- Source line 138 tag test: some marker is a case-insensitive substring of
the element tag. -/
def containsTagMarker (tag : String) : Bool :=
  candidate_tags.any (fun t => containsSeq (lowerStr t).toList (lowerStr tag).toList)

/-- Source lines 135-142: walk the elements, keep the text of the
marker-tagged ones with non-empty text, normalise it, and keep the names
that contain a dot; the Python `set` is modelled by `dedup`. -/
def extract_filenames (elems : List XElem) : List String :=
  (((elems.filter (fun e => e.text != "" && containsTagMarker e.tag)).map
      (fun e => _clean_to_filename e.text)).filter
    (fun n => n.toList.contains '.')).dedup

/-- Source lines 124-142, the stage after the format branch.  The Python
local `content` is only assigned in the compressed branch, so it is an
`Option String` here: when it is unbound, both `content.encode` in the
`try` body and `ET.fromstring(content)` in the `except` handler raise
`UnboundLocalError`, which the model surfaces as `PyErr.nameError`. -/
def parseStage (L : XmlLibs) (content : Option String) : Except PyErr (List String) :=
  match L.lxmlRecover, content with
  | some lp, some c =>
    (match lp c with
     | .ok elems => .ok (extract_filenames elems)
     | .error _ =>
       match L.etFromstring c with
       | .ok elems => .ok (extract_filenames elems)
       | .error _ => .error .parseError)
  | some _, none => .error .nameError
  | none, some c =>
    (match L.etFromstring c with
     | .ok elems => .ok (extract_filenames elems)
     | .error _ => .error .parseError)
  | none, none => .error .nameError

/-- Source lines 107-114: peek the two-byte gzip magic; on a match,
decompress and decode as strict UTF-8; otherwise best-effort decode the raw
bytes with the byte-order mark stripped. -/
def readCompressed (L : XmlLibs) (bytes : List Nat) : Except PyErr String :=
  if bytes.take 2 = [0x1f, 0x8b] then
    match L.gunzip bytes with
    | none => .error .badGzip
    | some out =>
      match utf8DecodeStrict out with
      | none => .error .unicodeDecodeError
      | some cs => .ok ⟨cs⟩
  else .ok (utf8SigDecodeSkip bytes)

/-- Source `parse_project_filenames`.  The compressed branch decodes the
container via `readCompressed` and then (source line 115) strict-parses the
decoded text with `ET.fromstring`, whose result is discarded by the later
`parseStage` but whose `ParseError` propagates; the `.aepx` branch
strict-parses the file and leaves `content` unassigned; any other suffix
raises `ValueError`, modelled as `PyErr.unsupportedFormat`. -/
def parse_project_filenames (L : XmlLibs) (f : PFile) : Except PyErr (List String) :=
  if isCompressedRoute f.path then
    match readCompressed L f.bytes with
    | .error e => .error e
    | .ok content =>
      match L.etFromstring content with
      | .error _ => .error .parseError
      | .ok _ => parseStage L (some content)
  else if lowerStr (path_suffix f.path) = ".aepx" then
    match L.etParseFile f.bytes with
    | .error _ => .error .parseError
    | .ok _ => parseStage L none
  else .error (.unsupportedFormat (lowerStr (path_suffix f.path)))

/-! ## The folder scanner `scan_folder_filenames` (source lines 144-147) -/

/-- Kind of a filesystem entry; a symbolic link records whether following
it reaches a regular file. -/
inductive FSKind where
  | regular
  | directory
  | symlink (resolvesToFile : Bool)
deriving DecidableEq

/-- One filesystem entry beneath the scanned folder, as yielded by
`Path.rglob('*')`: its base name and its kind. -/
structure FSEntry where
  name : String
  kind : FSKind
deriving DecidableEq

/-- Python `Path.is_file()`: true for a regular file, and for a symbolic
link that resolves to a regular file (the test follows links). -/
def pyIsFile (e : FSEntry) : Bool :=
  match e.kind with
  | .regular => true
  | .directory => false
  | .symlink b => b

/-- Source `scan_folder_filenames`: the set of base names of the entries
passing `is_file()`. -/
def scan_folder_filenames (entries : List FSEntry) : List String :=
  ((entries.filter pyIsFile).map (fun e => e.name)).dedup

/-! ## The ignore filter and the reconciler (source lines 149-174) -/

/-- Source line 149. -/
def IGNORE_EXTENSIONS : List String := [".pek", ".epr", ".cfa"]

/-- Source line 150. -/
def IGNORE_SUBSTRINGS : List String := ["_proxy", "_subclip"]

/-- Source `is_ignored`: lower-case the name, then test the ignorable
extensions with `endswith` and the ignorable substrings with `in`. -/
def is_ignored (filename : String) : Bool :=
  let lower := lowerStr filename
  IGNORE_EXTENSIONS.any (fun e => List.isSuffixOf e.toList lower.toList) ||
    IGNORE_SUBSTRINGS.any (fun sub => containsSeq sub.toList lower.toList)

/-- Python `sorted` on a set of strings: sort the (duplicate-free) elements
by code points. -/
def pySorted (l : List String) : List String :=
  List.insertionSort (fun a b => lexLe a.toList b.toList = true) l

/-- Source `compare_filenames`: extract the declared set, scan the folder,
filter both through `is_ignored`, and return the sorted intersection and
differences. -/
def compare_filenames (L : XmlLibs) (f : PFile) (folder : List FSEntry) :
    Except PyErr (List String × List String × List String) :=
  match parse_project_filenames L f with
  | .error e => .error e
  | .ok project_files_raw =>
    let actual_files_raw := scan_folder_filenames folder
    let project_files := project_files_raw.filter (fun x => !is_ignored x)
    let actual_files := actual_files_raw.filter (fun x => !is_ignored x)
    let matched := pySorted (project_files.filter (fun x => decide (x ∈ actual_files)))
    let missing := pySorted (project_files.filter (fun x => !decide (x ∈ actual_files)))
    let extra := pySorted (actual_files.filter (fun x => !decide (x ∈ project_files)))
    .ok (matched, missing, extra)

/-! ## Concrete collaborators used by the closed witness statements -/

/-- A small parsed tree: three marker-tagged elements. -/
def sampleTree : List XElem :=
  [⟨"FilePath", "a.mp4"⟩, ⟨"FilePath", "b.mov"⟩, ⟨"FilePath", "proxy_a_proxy.mp4"⟩]

/-- Collaborators for which every parse succeeds with `sampleTree` and
decompression yields a byte that is not valid UTF-8. -/
def sampleLibs : XmlLibs :=
  { etFromstring := fun _ => .ok sampleTree
    etParseFile := fun _ => .ok sampleTree
    lxmlRecover := some (fun _ => .ok sampleTree)
    gunzip := fun _ => some [0xff] }

/-- Collaborators whose strict parses fail while the recovering one
succeeds (the situation of a recoverably malformed document). -/
def strictFailLibs : XmlLibs :=
  { etFromstring := fun _ => .error ()
    etParseFile := fun _ => .error ()
    lxmlRecover := some (fun _ => .ok sampleTree)
    gunzip := fun _ => none }

/-- A concrete media folder: `a.mp4`, `c.mov` and a proxy derivative. -/
def sampleFolder : List FSEntry :=
  [⟨"a.mp4", .regular⟩, ⟨"c.mov", .regular⟩, ⟨"proxy_a_proxy.mp4", .regular⟩]

/-! ## General lemmas about the model -/

/-- Sorting does not change membership. -/
theorem mem_pySorted {x : String} {l : List String} : x ∈ pySorted l ↔ x ∈ l :=
  (List.perm_insertionSort _ l).mem_iff

/-- Sorting preserves freedom from duplicates. -/
theorem nodup_pySorted {l : List String} (h : l.Nodup) : (pySorted l).Nodup :=
  (List.perm_insertionSort _ l).nodup_iff.mpr h

/-- Every successful result of the post-branch parse stage is the
duplicate-free extracted name list. -/
theorem parseStage_ok_nodup {L : XmlLibs} {c : Option String} {pr : List String}
    (h : parseStage L c = .ok pr) : pr.Nodup := by
  unfold parseStage at h
  repeat' split at h
  all_goals first
    | (cases h; exact List.nodup_dedup _)
    | cases h

/-- Every successful result of `parse_project_filenames` is duplicate-free
(it is a Python set). -/
theorem parse_ok_nodup {L : XmlLibs} {f : PFile} {pr : List String}
    (h : parse_project_filenames L f = .ok pr) : pr.Nodup := by
  unfold parse_project_filenames at h
  repeat' split at h
  all_goals first
    | exact parseStage_ok_nodup h
    | cases h

/-- Claim C3: on every project and folder input on which reconciliation
succeeds, the three returned sequences are pairwise disjoint, the union of
matched and missing is the ignore-filtered declared set, and the union of
matched and extra is the ignore-filtered disk set. -/
theorem compare_filenames_partition
    (L : XmlLibs) (f : PFile) (folder : List FSEntry)
    (pr m mi ex : List String)
    (hp : parse_project_filenames L f = .ok pr)
    (hc : compare_filenames L f folder = .ok (m, mi, ex)) :
    m.toFinset ∪ mi.toFinset = (pr.filter (fun x => !is_ignored x)).toFinset ∧
    m.toFinset ∪ ex.toFinset =
      ((scan_folder_filenames folder).filter (fun x => !is_ignored x)).toFinset ∧
    m.Disjoint mi ∧ m.Disjoint ex ∧ mi.Disjoint ex := by
  unfold compare_filenames at hc
  rw [hp] at hc
  simp only [Except.ok.injEq, Prod.mk.injEq] at hc
  obtain ⟨hm, hmi, hex⟩ := hc
  subst hm hmi hex
  set P := pr.filter (fun x => !is_ignored x) with hP
  set A := (scan_folder_filenames folder).filter (fun x => !is_ignored x) with hA
  refine ⟨?_, ?_, ?_, ?_, ?_⟩
  · ext x
    simp only [Finset.mem_union, List.mem_toFinset, mem_pySorted, List.mem_filter,
      decide_eq_true_eq, Bool.not_eq_true', decide_eq_false_iff_not]
    tauto
  · ext x
    simp only [Finset.mem_union, List.mem_toFinset, mem_pySorted, List.mem_filter,
      decide_eq_true_eq, Bool.not_eq_true', decide_eq_false_iff_not]
    constructor
    · rintro (⟨⟨hxP, hxA⟩⟩ | ⟨hxA, _⟩) <;> exact hxA
    · intro hxA
      by_cases hxP : x ∈ P
      · exact Or.inl ⟨hxP, hxA⟩
      · exact Or.inr ⟨hxA, hxP⟩
  · intro x hx hx'
    rw [mem_pySorted, List.mem_filter] at hx hx'
    simp only [decide_eq_true_eq, Bool.not_eq_true', decide_eq_false_iff_not] at hx hx'
    exact hx'.2 hx.2
  · intro x hx hx'
    rw [mem_pySorted, List.mem_filter] at hx hx'
    simp only [decide_eq_true_eq, Bool.not_eq_true', decide_eq_false_iff_not] at hx hx'
    exact hx'.2 hx.1
  · intro x hx hx'
    rw [mem_pySorted, List.mem_filter] at hx hx'
    simp only [decide_eq_true_eq, Bool.not_eq_true', decide_eq_false_iff_not] at hx hx'
    exact hx.2 hx'.1

/-- Witness for C3 at a concrete project and folder. -/
theorem compare_filenames_partition_witness :
    parse_project_filenames sampleLibs ⟨"p.prproj", []⟩ =
      .ok ["a.mp4", "b.mov", "proxy_a_proxy.mp4"] ∧
    compare_filenames sampleLibs ⟨"p.prproj", []⟩ sampleFolder =
      .ok (["a.mp4"], ["b.mov"], ["c.mov"]) ∧
    (["a.mp4"] : List String).toFinset ∪ (["b.mov"] : List String).toFinset =
      ((["a.mp4", "b.mov", "proxy_a_proxy.mp4"] : List String).filter
        (fun x => !is_ignored x)).toFinset :=
  ⟨by decide, by decide,
    (compare_filenames_partition sampleLibs ⟨"p.prproj", []⟩ sampleFolder
      ["a.mp4", "b.mov", "proxy_a_proxy.mp4"] ["a.mp4"] ["b.mov"] ["c.mov"]
      (by decide) (by decide)).1⟩

/-- Claim C10: each sequence returned by a successful reconciliation is
free of duplicates. -/
theorem compare_filenames_nodup
    (L : XmlLibs) (f : PFile) (folder : List FSEntry)
    (m mi ex : List String)
    (hc : compare_filenames L f folder = .ok (m, mi, ex)) :
    m.Nodup ∧ mi.Nodup ∧ ex.Nodup := by
  unfold compare_filenames at hc
  split at hc
  · cases hc
  · next pr hp =>
    simp only [Except.ok.injEq, Prod.mk.injEq] at hc
    obtain ⟨hm, hmi, hex⟩ := hc
    subst hm hmi hex
    have hpr : pr.Nodup := parse_ok_nodup hp
    have hscan : (scan_folder_filenames folder).Nodup := List.nodup_dedup _
    exact ⟨nodup_pySorted ((hpr.filter _).filter _),
      nodup_pySorted ((hpr.filter _).filter _),
      nodup_pySorted ((hscan.filter _).filter _)⟩

/-- Witness for C10 at a concrete project and a folder containing a
directory and a symbolic link. -/
theorem compare_filenames_nodup_witness :
    compare_filenames sampleLibs ⟨"q.prproj", []⟩
      [⟨"a.mp4", .regular⟩, ⟨"a.mp4", .directory⟩, ⟨"d.mov", .symlink true⟩] =
      .ok (["a.mp4"], ["b.mov"], ["d.mov"]) ∧
    (["a.mp4"] : List String).Nodup ∧ (["b.mov"] : List String).Nodup ∧
      (["d.mov"] : List String).Nodup :=
  ⟨by decide,
    compare_filenames_nodup sampleLibs ⟨"q.prproj", []⟩
      [⟨"a.mp4", .regular⟩, ⟨"a.mp4", .directory⟩, ⟨"d.mov", .symlink true⟩]
      ["a.mp4"] ["b.mov"] ["d.mov"] (by decide)⟩

/-- Claim C7: a project path that is routed to neither recognised format
makes the whole reconciliation fail with `UnsupportedFormat` naming the
(lower-cased) extension, for every folder alike — the folder is never
scanned. -/
theorem compare_filenames_unsupported
    (L : XmlLibs) (f : PFile) (folder : List FSEntry)
    (h1 : isCompressedRoute f.path = false)
    (h2 : lowerStr (path_suffix f.path) ≠ ".aepx") :
    compare_filenames L f folder =
      .error (.unsupportedFormat (lowerStr (path_suffix f.path))) := by
  unfold compare_filenames parse_project_filenames
  rw [h1]
  simp [h2]

/-- Witness for C7: a `.txt` project is rejected identically for two
different folders. -/
theorem compare_filenames_unsupported_witness :
    isCompressedRoute "p.txt" = false ∧
    lowerStr (path_suffix "p.txt") ≠ ".aepx" ∧
    compare_filenames sampleLibs ⟨"p.txt", []⟩ sampleFolder =
      .error (.unsupportedFormat (lowerStr (path_suffix "p.txt"))) ∧
    compare_filenames sampleLibs ⟨"p.txt", []⟩ [] =
      .error (.unsupportedFormat (lowerStr (path_suffix "p.txt"))) :=
  ⟨by decide, by decide,
    compare_filenames_unsupported sampleLibs ⟨"p.txt", []⟩ sampleFolder
      (by decide) (by decide),
    compare_filenames_unsupported sampleLibs ⟨"p.txt", []⟩ []
      (by decide) (by decide)⟩

/-- Claim C1: contrary to the spec (and to the source's own comment at line
124), the compressed branch strict-parses the decoded text at source line
115 before the lenient attempt of lines 125-133 runs, so a recoverable
parse error propagates even when the lenient parser is available and
succeeds on the very same text. -/
theorem parse_prproj_strict_first
    (L : XmlLibs) (f : PFile) (lp : String → Except Unit (List XElem))
    (elems : List XElem)
    (hroute : isCompressedRoute f.path = true)
    (hmagic : f.bytes.take 2 ≠ [0x1f, 0x8b])
    (hstrict : L.etFromstring (utf8SigDecodeSkip f.bytes) = .error ())
    (hlx : L.lxmlRecover = some lp)
    (hlen : lp (utf8SigDecodeSkip f.bytes) = .ok elems) :
    parse_project_filenames L f = .error .parseError := by
  simp [parse_project_filenames, readCompressed, hroute, hmagic, hstrict]

/-- Witness for C1: a non-gzip `.prproj` whose text the strict parser
rejects and the recovering parser accepts still fails. -/
theorem parse_prproj_strict_first_witness :
    isCompressedRoute "broken.prproj" = true ∧
    strictFailLibs.etFromstring (utf8SigDecodeSkip []) = .error () ∧
    parse_project_filenames strictFailLibs ⟨"broken.prproj", []⟩ = .error .parseError :=
  ⟨by decide, rfl,
    parse_prproj_strict_first strictFailLibs ⟨"broken.prproj", []⟩
      (fun _ => .ok sampleTree) sampleTree (by decide) (by decide) rfl rfl rfl⟩

/-- Claim C2: contrary to the spec, every `.aepx` project fails, because
the branch at source lines 118-119 never assigns the local `content` that
lines 128 and 132 then read, raising `UnboundLocalError` even though the
file itself parsed successfully. -/
theorem parse_aepx_name_error
    (L : XmlLibs) (f : PFile) (elems : List XElem)
    (hroute : isCompressedRoute f.path = false)
    (hsuffix : lowerStr (path_suffix f.path) = ".aepx")
    (hparse : L.etParseFile f.bytes = .ok elems) :
    parse_project_filenames L f = .error .nameError := by
  unfold parse_project_filenames
  rw [hroute, hsuffix]
  simp [hparse, parseStage]
  cases L.lxmlRecover <;> simp [parseStage]

/-- Witness for C2: a well-formed `.aepx` file fails with the unbound
local. -/
theorem parse_aepx_name_error_witness :
    isCompressedRoute "p.aepx" = false ∧
    sampleLibs.etParseFile [] = .ok sampleTree ∧
    parse_project_filenames sampleLibs ⟨"p.aepx", []⟩ = .error .nameError :=
  ⟨by decide, rfl,
    parse_aepx_name_error sampleLibs ⟨"p.aepx", []⟩ sampleTree
      (by decide) (by decide) rfl⟩

/-- Claim C9: when the first two bytes are the gzip magic, the decompressed
bytes are decoded as strict UTF-8, so invalid UTF-8 in the decompressed
content raises a decoding error instead of being decoded best-effort. -/
theorem parse_gzip_strict_decode
    (L : XmlLibs) (f : PFile) (out : List Nat)
    (hroute : isCompressedRoute f.path = true)
    (hmagic : f.bytes.take 2 = [0x1f, 0x8b])
    (hgz : L.gunzip f.bytes = some out)
    (hdec : utf8DecodeStrict out = none) :
    parse_project_filenames L f = .error .unicodeDecodeError := by
  simp [parse_project_filenames, readCompressed, hroute, hmagic, hgz, hdec]

/-- Witness for C9: a gzip container whose decompressed content is the
invalid byte `0xff`. -/
theorem parse_gzip_strict_decode_witness :
    isCompressedRoute "p.prproj" = true ∧
    sampleLibs.gunzip [0x1f, 0x8b] = some [0xff] ∧
    utf8DecodeStrict [0xff] = none ∧
    parse_project_filenames sampleLibs ⟨"p.prproj", [0x1f, 0x8b]⟩ =
      .error .unicodeDecodeError :=
  ⟨by decide, rfl, by decide,
    parse_gzip_strict_decode sampleLibs ⟨"p.prproj", [0x1f, 0x8b]⟩ [0xff]
      (by decide) (by decide) rfl (by decide)⟩

/-- Counterexample to claim C4: the two-suffix compressed form is matched
case-sensitively, so `a.PRPROJ.GZ` is not routed to the compressed branch
but rejected with `UnsupportedFormat`. -/
theorem prproj_gz_upper_cex :
    isCompressedRoute "a.PRPROJ.GZ" = false ∧
    parse_project_filenames sampleLibs ⟨"a.PRPROJ.GZ", []⟩ =
      .error (.unsupportedFormat ".gz") := by decide

/-- Claim C4 as amended: the bare compressed extension is detected
case-insensitively, but the two-suffix form `<ext>.gz` is matched
case-sensitively, so `a.PRPROJ.GZ` is rejected with `UnsupportedFormat`
naming `.gz`. -/
theorem isCompressedRoute_amended :
    (∀ p : String, lowerStr (path_suffix p) = ".prproj" → isCompressedRoute p = true) ∧
    isCompressedRoute "a.PRPROJ.GZ" = false ∧
    ∀ (L : XmlLibs) (bytes : List Nat),
      parse_project_filenames L ⟨"a.PRPROJ.GZ", bytes⟩ =
        .error (.unsupportedFormat ".gz") := by
  refine ⟨?_, by decide, ?_⟩
  · intro p h
    simp [isCompressedRoute, h]
  · intro L bytes
    rfl

/-- Witness for C4 as amended, at a mixed-case bare extension. -/
theorem isCompressedRoute_amended_witness :
    lowerStr (path_suffix "b.PrProj") = ".prproj" ∧
    isCompressedRoute "b.PrProj" = true :=
  ⟨by decide, isCompressedRoute_amended.1 "b.PrProj" (by decide)⟩

/-- Counterexample to claim C6: a symbolic link that resolves to a regular
file does appear in the scanned name set, because `Path.is_file()` follows
links. -/
theorem scan_symlink_cex :
    "link.mp4" ∈ scan_folder_filenames [⟨"link.mp4", FSKind.symlink true⟩] := by
  decide

/-- Claim C6 as amended: the folder scan returns exactly the base names of
the entries passing the link-following `is_file()` test — regular files and
symbolic links resolving to regular files; directories and other symbolic
links contribute nothing. -/
theorem scan_folder_filenames_spec (entries : List FSEntry) (x : String) :
    x ∈ scan_folder_filenames entries ↔
      ∃ e, e ∈ entries ∧ pyIsFile e = true ∧ e.name = x := by
  simp only [scan_folder_filenames, List.mem_dedup, List.mem_map, List.mem_filter]
  constructor
  · rintro ⟨e, ⟨he, hf⟩, hn⟩
    exact ⟨e, he, hf, hn⟩
  · rintro ⟨e, he, hf, hn⟩
    exact ⟨e, ⟨he, hf⟩, hn⟩

/-! ## Lemmas about the strip and name computations -/

/-- Dropping from the front does nothing when the head does not satisfy the
predicate. -/
theorem dropWhile_eq_self_of_head {p : Char → Bool} {l : List Char}
    (h : ∀ c, l.head? = some c → p c = false) : l.dropWhile p = l := by
  cases l with
  | nil => rfl
  | cons a t => simp [List.dropWhile_cons, h a rfl]

/-- Dropping from the back does nothing when the last element does not
satisfy the predicate. -/
theorem dropEndWhile_eq_self_of_last {p : Char → Bool} {l : List Char}
    (h : ∀ c, l.getLast? = some c → p c = false) : dropEndWhile p l = l := by
  unfold dropEndWhile
  rw [dropWhile_eq_self_of_head, List.reverse_reverse]
  intro c hc
  exact h c (by rwa [List.head?_reverse] at hc)

/-- Stripping does nothing when neither end satisfies the predicate. -/
theorem stripBoth_eq_self {p : Char → Bool} {l : List Char}
    (hh : ∀ c, l.head? = some c → p c = false)
    (hl : ∀ c, l.getLast? = some c → p c = false) : stripBoth p l = l := by
  unfold stripBoth
  rw [dropWhile_eq_self_of_head hh, dropEndWhile_eq_self_of_last hl]

/-- Stripping does nothing when no element satisfies the predicate. -/
theorem stripBoth_eq_self_of_all {p : Char → Bool} {l : List Char}
    (h : ∀ c ∈ l, p c = false) : stripBoth p l = l := by
  apply stripBoth_eq_self
  · intro c hc
    cases l with
    | nil => cases hc
    | cons a t =>
      simp only [List.head?_cons, Option.some.injEq] at hc
      subst hc
      exact h _ (List.mem_cons_self _ _)
  · intro c hc
    exact h c (List.mem_of_mem_getLast? hc)

/-- A leading run of characters satisfying the predicate is consumed. -/
theorem dropWhile_replicate_append {p : Char → Bool} {c : Char} (hp : p c = true)
    (n : Nat) (l : List Char) :
    (List.replicate n c ++ l).dropWhile p = l.dropWhile p := by
  induction n with
  | zero => rfl
  | succ k ih => simp [List.replicate_succ, List.dropWhile_cons, hp, ih]

/-- Stripping removes every layer of a wrapping character: wrapping a core
in `n` copies on each side and stripping recovers the bare core. -/
theorem stripBoth_wrap {p : Char → Bool} {c : Char} {core : List Char}
    (hp : p c = true) (hne : core ≠ [])
    (hh : ∀ d, core.head? = some d → p d = false)
    (hl : ∀ d, core.getLast? = some d → p d = false) (n : Nat) :
    stripBoth p (List.replicate n c ++ core ++ List.replicate n c) = core := by
  have hfront :
      (List.replicate n c ++ core ++ List.replicate n c).dropWhile p =
        core ++ List.replicate n c := by
    rw [List.append_assoc, dropWhile_replicate_append hp]
    apply dropWhile_eq_self_of_head
    intro d hd
    rw [List.head?_append] at hd
    cases hcore : core.head? with
    | none => exact absurd (List.head?_eq_none_iff.mp hcore) hne
    | some d0 =>
      rw [hcore] at hd
      cases hd
      exact hh _ hcore
  have hback : dropEndWhile p (core ++ List.replicate n c) = core := by
    unfold dropEndWhile
    rw [List.reverse_append, List.reverse_replicate,
      dropWhile_replicate_append hp, dropWhile_eq_self_of_head, List.reverse_reverse]
    intro d hd
    rw [List.head?_reverse] at hd
    exact hl d hd
  unfold stripBoth
  rw [hfront, hback]

/-- Splitting a list that contains no separator yields the single piece. -/
theorem splitSep_no_sep {p : Char → Bool} {l : List Char}
    (h : ∀ c ∈ l, p c = false) : splitSep p l = [l] := by
  induction l with
  | nil => rfl
  | cons c t ih =>
    have ht : ∀ d ∈ t, p d = false := fun d hd => h d (List.mem_cons_of_mem c hd)
    unfold splitSep
    rw [ih ht]
    simp [h c (List.mem_cons_self c t)]

/-- The last component of a separator-free, non-empty, non-dot relative
part is the part itself. -/
theorem relLastName_no_sep {sep : Char} {l : List Char}
    (h : ∀ c ∈ l, (c == sep) = false) (hne : l ≠ []) (hdot : l ≠ ['.']) :
    relLastName sep l = l := by
  unfold relLastName
  rw [splitSep_no_sep h]
  have he : l.isEmpty = false := by
    cases l with
    | nil => exact absurd rfl hne
    | cons a t => rfl
  have hb : (l == ['.']) = false := by
    rw [beq_eq_false_iff_ne]
    exact hdot
  simp [List.filter_cons, he, hb, hdot]

/-- Drive-and-root removal does nothing on a list with no backslash and no
alphabetic-drive prefix. -/
theorem stripDriveRoot_id {l : List Char}
    (hsep : ∀ c ∈ l, (c == bslash) = false)
    (hdr : ∀ a r, l = a :: ':' :: r → a.isAlpha = false) :
    stripDriveRoot l = l := by
  have hdrop : l.dropWhile (fun c => c == bslash) = l :=
    dropWhile_eq_self_of_head fun c hc => by
      cases l with
      | nil => cases hc
      | cons a t =>
        simp only [List.head?_cons, Option.some.injEq] at hc
        subst hc
        exact hsep _ (List.mem_cons_self _ _)
  unfold stripDriveRoot
  cases l with
  | nil => rfl
  | cons a t =>
    cases t with
    | nil => exact hdrop
    | cons b r =>
      by_cases hb : b = ':'
      · subst hb
        have : a.isAlpha = false := hdr a r rfl
        simp only [this, Bool.and_false]
        exact hdrop
      · have : (b == ':') = false := by simp [hb]
        simp only [this, Bool.false_and]
        exact hdrop

/-- On a list with no backslash the UNC analysis is vacuous. -/
theorem winRelPart_eq_stripDriveRoot {l : List Char}
    (hsep : ∀ c ∈ l, (c == bslash) = false) :
    winRelPart l = stripDriveRoot l := by
  cases l with
  | nil => rfl
  | cons a t =>
    cases t with
    | nil => rfl
    | cons b t2 =>
      cases t2 with
      | nil => rfl
      | cons c t3 =>
        have : (a == bslash) = false := hsep _ (List.mem_cons_self _ _)
        unfold winRelPart
        simp only [this, Bool.false_and, Bool.if_false_left, Bool.false_and]
        rw [if_neg]
        simp

/-- The Windows-style final component of a clean bare name is the name
itself. -/
theorem winNameChars_id {l : List Char}
    (hsl : ∀ c ∈ l, (c == '/') = false)
    (hsb : ∀ c ∈ l, (c == bslash) = false)
    (hdr : ∀ a r, l = a :: ':' :: r → a.isAlpha = false)
    (hdot : l ≠ ['.']) :
    winNameChars l = l := by
  have hmap : l.map (fun c => if c == '/' then bslash else c) = l := by
    have := List.map_congr_left (l := l)
      (f := fun c => if c == '/' then bslash else c) (g := id)
      (fun a ha => by simp [hsl a ha])
    rw [this, List.map_id]
  show relLastName bslash (winRelPart (l.map fun c => if c == '/' then bslash else c)) = l
  rw [hmap, winRelPart_eq_stripDriveRoot hsb, stripDriveRoot_id hsb hdr]
  cases hl : l with
  | nil => rfl
  | cons a t =>
    rw [← hl]
    exact relLastName_no_sep hsb (by rw [hl]; exact List.cons_ne_nil a t) hdot

/-- The whole post-strip computation is the identity on a clean bare name:
no separators, no drive-letter prefix, not the `.` component. -/
theorem cleanAfterStrip_id {l : List Char}
    (hsl : ∀ c ∈ l, (c == '/') = false)
    (hsb : ∀ c ∈ l, (c == bslash) = false)
    (hdr : ∀ a r, l = a :: ':' :: r → a.isAlpha = false)
    (hdot : l ≠ ['.']) :
    cleanAfterStrip l = l := by
  have htake : ¬ l.take 4 = [bslash, bslash, '?', bslash] := by
    intro h
    have hmem : bslash ∈ l.take 4 := by
      rw [h]
      exact List.mem_cons_self _ _
    have := hsb _ (List.take_subset 4 l hmem)
    simp at this
  have hpos : posixNameChars l = l := by
    cases hl : l with
    | nil => rfl
    | cons a t =>
      rw [← hl]
      exact relLastName_no_sep hsl (by rw [hl]; exact List.cons_ne_nil a t) hdot
  unfold cleanAfterStrip
  rw [if_neg htake]
  show (if winNameChars l = [] ∨ winNameChars l = l then posixNameChars l
    else winNameChars l) = l
  rw [winNameChars_id hsl hsb hdr hdot, if_pos (Or.inr rfl), hpos]

/-- Edge characters removed by the strip phase. -/
def stripEdgeChar (c : Char) : Bool :=
  isPyWs c || c == dquoteChar || c == squoteChar

/-- A bare filename as the amended claim C8 needs it: no path separator in
any style, no Windows drive-letter prefix (an alphabetic character followed
by a colon), no whitespace or quote character at either end, and not the
bare `.` component. -/
def bareNameOk (l : List Char) : Bool :=
  l.all (fun c => c != '/' && c != bslash) &&
    !((l.get? 1 == some ':') && l.head?.any Char.isAlpha) &&
    !(l.head?.any stripEdgeChar) &&
    !(l.getLast?.any stripEdgeChar) &&
    l != ['.']

/-- Claim C8 as amended: normalisation is the identity on every bare
filename that contains no path separator of either style, does not start
with a drive-letter-colon pair, has no whitespace or quote character at
either end, and is not `.`. -/
theorem clean_bare_identity (s : String) (h : bareNameOk s.toList = true) :
    _clean_to_filename s = s := by
  rw [bareNameOk] at h
  simp only [Bool.and_eq_true, Bool.not_eq_true'] at h
  obtain ⟨⟨⟨⟨hall, hdrv⟩, hhead⟩, hlast⟩, hdot⟩ := h
  rw [List.all_eq_true] at hall
  have hsl : ∀ c ∈ s.toList, (c == '/') = false := by
    intro c hc
    have := hall c hc
    simp only [Bool.and_eq_true, bne_iff_ne] at this
    simp [this.1]
  have hsb : ∀ c ∈ s.toList, (c == bslash) = false := by
    intro c hc
    have := hall c hc
    simp only [Bool.and_eq_true, bne_iff_ne] at this
    simp [this.2]
  have hdr : ∀ a r, s.toList = a :: ':' :: r → a.isAlpha = false := by
    intro a r hl
    rw [hl] at hdrv
    simpa using hdrv
  have hhead' : ∀ c, s.toList.head? = some c → stripEdgeChar c = false := by
    intro c hc
    rw [hc] at hhead
    simpa using hhead
  have hlast' : ∀ c, s.toList.getLast? = some c → stripEdgeChar c = false := by
    intro c hc
    rw [hc] at hlast
    simpa using hlast
  have hWsH : ∀ c, s.toList.head? = some c → isPyWs c = false := fun c hc => by
    have := hhead' c hc
    simp only [stripEdgeChar, Bool.or_eq_false_iff] at this
    exact this.1.1
  have hWsL : ∀ c, s.toList.getLast? = some c → isPyWs c = false := fun c hc => by
    have := hlast' c hc
    simp only [stripEdgeChar, Bool.or_eq_false_iff] at this
    exact this.1.1
  have hDqH : ∀ c, s.toList.head? = some c → (c == dquoteChar) = false := fun c hc => by
    have := hhead' c hc
    simp only [stripEdgeChar, Bool.or_eq_false_iff] at this
    exact this.1.2
  have hDqL : ∀ c, s.toList.getLast? = some c → (c == dquoteChar) = false := fun c hc => by
    have := hlast' c hc
    simp only [stripEdgeChar, Bool.or_eq_false_iff] at this
    exact this.1.2
  have hSqH : ∀ c, s.toList.head? = some c → (c == squoteChar) = false := fun c hc => by
    have := hhead' c hc
    simp only [stripEdgeChar, Bool.or_eq_false_iff] at this
    exact this.2
  have hSqL : ∀ c, s.toList.getLast? = some c → (c == squoteChar) = false := fun c hc => by
    have := hlast' c hc
    simp only [stripEdgeChar, Bool.or_eq_false_iff] at this
    exact this.2
  have hdot' : s.toList ≠ ['.'] := by
    rwa [bne_iff_ne] at hdot
  have hsp : stripPhase s.toList = s.toList := by
    unfold stripPhase
    rw [stripBoth_eq_self hWsH hWsL, stripBoth_eq_self hDqH hDqL,
      stripBoth_eq_self hSqH hSqL]
  show (⟨cleanAfterStrip (stripPhase s.toList)⟩ : String) = s
  rw [hsp, cleanAfterStrip_id hsl hsb hdr hdot']
  rfl

/-- Counterexample to claim C8 as stated: `a:b.mp4` contains no path
separator, yet normalisation treats `a:` as a Windows drive and returns
`b.mp4`. -/
theorem clean_bare_identity_cex :
    (∀ c ∈ ("a:b.mp4" : String).toList, c ≠ '/' ∧ c ≠ bslash) ∧
    _clean_to_filename "a:b.mp4" = "b.mp4" ∧
    _clean_to_filename "a:b.mp4" ≠ "a:b.mp4" := by decide

/-- Witness for C8 as amended at a concrete bare name. -/
theorem clean_bare_identity_witness :
    bareNameOk ("clip01.mp4" : String).toList = true ∧
    _clean_to_filename "clip01.mp4" = "clip01.mp4" :=
  ⟨by decide, clean_bare_identity "clip01.mp4" (by decide)⟩

/-- Character list of the bare sample name `a.mp4`. -/
def aChars : List Char := ['a', '.', 'm', 'p', '4']

/-- Counterexample to claim C5 as stated: for a name wrapped in doubled
double-quotes, `strip('"')` removes both layers, not only the outer one, so
the result is the bare name rather than a once-quoted name. -/
theorem clean_quote_layers_cex :
    _clean_to_filename "\"\"a.mp4\"\"" = "a.mp4" ∧
    _clean_to_filename "\"\"a.mp4\"\"" ≠ "\"a.mp4\"" := by decide

/-- Claim C5 as amended: the strip phase removes surrounding whitespace and
then every layer of enclosing double quotes (and then of single quotes),
so a bare name wrapped in any number of double-quote layers normalises to
the bare name. -/
theorem clean_quote_layers (n : Nat) :
    _clean_to_filename
        ⟨List.replicate n dquoteChar ++ aChars ++ List.replicate n dquoteChar⟩ =
      "a.mp4" := by
  have h0 : stripBoth isPyWs
      (List.replicate n dquoteChar ++ aChars ++ List.replicate n dquoteChar) =
      List.replicate n dquoteChar ++ aChars ++ List.replicate n dquoteChar := by
    apply stripBoth_eq_self_of_all
    intro c hc
    simp only [List.mem_append, List.mem_replicate] at hc
    rcases hc with (⟨_, rfl⟩ | hc) | ⟨_, rfl⟩
    · decide
    · simp only [aChars, List.mem_cons, List.not_mem_nil, or_false] at hc
      rcases hc with rfl | rfl | rfl | rfl | rfl <;> decide
    · decide
  have h1 : stripBoth (fun c => c == dquoteChar)
      (List.replicate n dquoteChar ++ aChars ++ List.replicate n dquoteChar) =
      aChars :=
    stripBoth_wrap (by decide) (by decide)
      (fun d hd => by
        rw [show aChars.head? = some 'a' from rfl] at hd
        cases hd
        decide)
      (fun d hd => by
        rw [show aChars.getLast? = some '4' from rfl] at hd
        cases hd
        decide) n
  have h2 : stripBoth (fun c => c == squoteChar) aChars = aChars := by
    apply stripBoth_eq_self_of_all
    intro c hc
    simp only [aChars, List.mem_cons, List.not_mem_nil, or_false] at hc
    rcases hc with rfl | rfl | rfl | rfl | rfl <;> decide
  have hsp : stripPhase
      (List.replicate n dquoteChar ++ aChars ++ List.replicate n dquoteChar) =
      aChars := by
    unfold stripPhase
    rw [h0, h1, h2]
  show (⟨cleanAfterStrip (stripPhase
      (List.replicate n dquoteChar ++ aChars ++ List.replicate n dquoteChar))⟩ :
    String) = "a.mp4"
  rw [hsp]
  decide
